import Mathlib

/-
Verification of the portfolio simulation engine and position sizers of the
trading backtester (src/backtester.py and src/position_size.py).

Modelling conventions:
* Money amounts, prices and share counts are rationals (ℚ).  Python floats are
  modelled as exact rationals; `round(x, 2)` is modelled by `round2` (round to
  the nearest hundredth, halves up).
* Python float floor division `a // b` is modelled by `((⌊a / b⌋ : ℤ) : ℚ)`.
* Python dictionaries are modelled as association lists preserving insertion
  order (Python dicts iterate in insertion order).
* The possible values of a purchase candidate's `stop_loss` entry are modelled
  by `PyVal`: absent (`none`), float NaN (`nan`), or a number (`num q`).
  Python truthiness: `not x` is true for an absent value and for the number 0.
-/

inductive EntryType where
  | long
  | short
deriving DecidableEq

/-- Value of the optional `stop_loss` field of a candidate: absent, NaN, or a
number. -/
inductive PyVal where
  | none
  | nan
  | num (q : ℚ)
deriving DecidableEq

/-- The deterministic candidate orderings of `PositionSize.sort`.  The
`random` sort type shuffles and is outside this deterministic model. -/
inductive SortType where
  | alphabetically
  | cheapest
  | expensive
deriving DecidableEq

/-- Errors raised by `PercentageRisk.decide_what_to_buy`: the two explicit
`ValueError`s of the source and the implicit `ZeroDivisionError` of the
floor division by `abs(price - stop_loss)`. -/
inductive PRError where
  | missingStopLoss
  | nanStopLoss
  | divByZero
deriving DecidableEq

/-- A purchase candidate as assembled by the engine or handed to a sizer. -/
structure Candidate where
  symbol : String
  entry_type : EntryType
  price : ℚ
  stop_loss : PyVal := PyVal.none
deriving DecidableEq

/-- A sizer fill, i.e. the dictionary built by `_define_symbol_to_buy`. -/
structure Fill where
  symbol : String
  entry_type : EntryType
  shares_count : ℚ
  price : ℚ
  trx_value : ℚ
  fee : ℚ
deriving DecidableEq

/-- Python `round(x, 2)`: round to two decimal places. -/
def round2 (x : ℚ) : ℚ := ((round (100 * x) : ℤ) : ℚ) / 100

/-- `PositionSize.calculate_fee` / `Backtester.calculate_fee` (identical in
both classes): proportional fee with a minimum-fee floor, rounded to two
decimal places. -/
def calculate_fee (fee_perc min_fee transaction_value : ℚ) : ℚ :=
  if transaction_value * fee_perc < min_fee then round2 min_fee
  else round2 (transaction_value * fee_perc)

/-- `PositionSize.get_shares_count`: `money // (price + price * fee_perc)`
(Python float floor division). -/
def get_shares_count (fee_perc money price : ℚ) : ℚ :=
  ((⌊money / (price + price * fee_perc)⌋ : ℤ) : ℚ)

/-- `PositionSize._define_symbol_to_buy`. -/
def _define_symbol_to_buy (c : Candidate) (shares_count trx_value expected_fee : ℚ) : Fill :=
  { symbol := c.symbol
    entry_type := c.entry_type
    shares_count := shares_count
    price := c.price
    trx_value := trx_value
    fee := expected_fee }

/-- Code-point comparison of characters (Python string ordering compares code
points). -/
def charLe (a b : Char) : Bool := a.toNat ≤ b.toNat

/-- Lexicographic code-point comparison of character lists. -/
def charListLe : List Char → List Char → Bool
  | [], _ => true
  | _ :: _, [] => false
  | a :: as, b :: bs => if a = b then charListLe as bs else charLe a b

/-- Python string `<=` (lexicographic by code point). -/
def symbolLe (a b : String) : Bool := charListLe a.data b.data

/-- One step of a stable insertion sort. -/
def insertCand (le : Candidate → Candidate → Bool) (c : Candidate) :
    List Candidate → List Candidate
  | [] => [c]
  | d :: ds => if le c d then c :: d :: ds else d :: insertCand le c ds

/-- Stable insertion sort of candidates (models Python's stable `list.sort`). -/
def sortCandList (le : Candidate → Candidate → Bool) : List Candidate → List Candidate
  | [] => []
  | c :: cs => insertCand le c (sortCandList le cs)

/-- `PositionSize.sort`: order the candidate list according to `sort_type`. -/
def PositionSize.sort (sort_type : SortType) (candidates : List Candidate) : List Candidate :=
  match sort_type with
  | .alphabetically => sortCandList (fun a b => symbolLe a.symbol b.symbol) candidates
  | .cheapest => sortCandList (fun a b => decide (a.price ≤ b.price)) candidates
  | .expensive => sortCandList (fun a b => decide (b.price ≤ a.price)) candidates

/-- Shared by `FixedCapitalPerc` and `PercentageRisk`: the share count when a
per-trade budget caps the spend (`if available < budget` use available money,
else use the budget). -/
def sharesVsBudget (fee_perc budget money price : ℚ) : ℚ :=
  if money < budget then get_shares_count fee_perc money price
  else get_shares_count fee_perc budget price

/-- Loop body of `MaxFirstEncountered.decide_what_to_buy`: first candidate
with a non-zero share count wins the entire available money. -/
def MaxFirstEncountered.go (fee_perc min_fee money : ℚ) : List Candidate → List Fill
  | [] => []
  | c :: cs =>
    if get_shares_count fee_perc money c.price = 0 then
      MaxFirstEncountered.go fee_perc min_fee money cs
    else
      [_define_symbol_to_buy c (get_shares_count fee_perc money c.price)
        (get_shares_count fee_perc money c.price * c.price)
        (calculate_fee fee_perc min_fee (get_shares_count fee_perc money c.price * c.price))]

/-- `MaxFirstEncountered.decide_what_to_buy`. -/
def MaxFirstEncountered.decide_what_to_buy (fee_perc min_fee : ℚ) (sort_type : SortType)
    (available_money_at_time : ℚ) (candidates : List Candidate) : List Fill :=
  MaxFirstEncountered.go fee_perc min_fee available_money_at_time
    (PositionSize.sort sort_type candidates)

/-- Loop body of `FixedCapitalPerc.decide_what_to_buy`: spend up to
`single_buy_limit` per candidate, deducting the spent amount from the running
available money. -/
def FixedCapitalPerc.go (fee_perc min_fee single_buy_limit : ℚ) :
    ℚ → List Candidate → List Fill
  | _, [] => []
  | money, c :: cs =>
    if sharesVsBudget fee_perc single_buy_limit money c.price = 0 then
      FixedCapitalPerc.go fee_perc min_fee single_buy_limit money cs
    else
      _define_symbol_to_buy c (sharesVsBudget fee_perc single_buy_limit money c.price)
          (sharesVsBudget fee_perc single_buy_limit money c.price * c.price)
          (calculate_fee fee_perc min_fee
            (sharesVsBudget fee_perc single_buy_limit money c.price * c.price)) ::
        FixedCapitalPerc.go fee_perc min_fee single_buy_limit
          (money - (sharesVsBudget fee_perc single_buy_limit money c.price * c.price +
            calculate_fee fee_perc min_fee
              (sharesVsBudget fee_perc single_buy_limit money c.price * c.price))) cs

/-- `FixedCapitalPerc.decide_what_to_buy`: the per-trade limit is
`round(capital * capital_perc, 2)`. -/
def FixedCapitalPerc.decide_what_to_buy (fee_perc min_fee : ℚ) (sort_type : SortType)
    (capital_perc available_money_at_time capital : ℚ) (candidates : List Candidate) :
    List Fill :=
  FixedCapitalPerc.go fee_perc min_fee (round2 (capital * capital_perc))
    available_money_at_time (PositionSize.sort sort_type candidates)

/-- Modelled from the amended C6 claim text: identical to
`FixedCapitalPerc.go` except that the share count is computed from
`min(remaining_cash, ceiling)` instead of the source's if/else choice. -/
def FixedCapitalPercAmended.go (fee_perc min_fee single_buy_limit : ℚ) :
    ℚ → List Candidate → List Fill
  | _, [] => []
  | money, c :: cs =>
    if get_shares_count fee_perc (min money single_buy_limit) c.price = 0 then
      FixedCapitalPercAmended.go fee_perc min_fee single_buy_limit money cs
    else
      _define_symbol_to_buy c (get_shares_count fee_perc (min money single_buy_limit) c.price)
          (get_shares_count fee_perc (min money single_buy_limit) c.price * c.price)
          (calculate_fee fee_perc min_fee
            (get_shares_count fee_perc (min money single_buy_limit) c.price * c.price)) ::
        FixedCapitalPercAmended.go fee_perc min_fee single_buy_limit
          (money - (get_shares_count fee_perc (min money single_buy_limit) c.price * c.price +
            calculate_fee fee_perc min_fee
              (get_shares_count fee_perc (min money single_buy_limit) c.price * c.price))) cs

/-- Amended-claim counterpart of `FixedCapitalPerc.decide_what_to_buy`. -/
def FixedCapitalPercAmended.decide_what_to_buy (fee_perc min_fee : ℚ) (sort_type : SortType)
    (capital_perc available_money_at_time capital : ℚ) (candidates : List Candidate) :
    List Fill :=
  FixedCapitalPercAmended.go fee_perc min_fee (round2 (capital * capital_perc))
    available_money_at_time (PositionSize.sort sort_type candidates)

/-- `theoretical_shares_count * price` of `PercentageRisk.decide_what_to_buy`:
`(risk_per_transaction // abs(price - stop_loss)) * price`. -/
def prTheoTrx (risk_per_transaction stop_loss price : ℚ) : ℚ :=
  ((⌊risk_per_transaction / |price - stop_loss|⌋ : ℤ) : ℚ) * price

/-- Loop body of `PercentageRisk.decide_what_to_buy`.  A candidate with an
absent or falsy (zero) `stop_loss` raises the missing-stop-loss `ValueError`,
a NaN `stop_loss` raises the NaN `ValueError`, a `stop_loss` equal to the
price makes the floor division `risk // abs(price - stop_loss)` raise
`ZeroDivisionError`, and — reached right after that division — a zero
divisor `price + price * fee_perc` (e.g. a candidate priced 0) makes the
floor division inside `get_shares_count` raise `ZeroDivisionError` as well. -/
def PercentageRisk.go (fee_perc min_fee risk_per_transaction : ℚ) :
    ℚ → List Candidate → Except PRError (List Fill)
  | _, [] => .ok []
  | money, c :: cs =>
    match c.stop_loss with
    | PyVal.none => .error .missingStopLoss
    | PyVal.nan => .error .nanStopLoss
    | PyVal.num s =>
      if s = 0 then .error .missingStopLoss
      else if |c.price - s| = 0 then .error .divByZero
      else if c.price + c.price * fee_perc = 0 then .error .divByZero
      else
        if sharesVsBudget fee_perc (prTheoTrx risk_per_transaction s c.price) money c.price = 0 then
          PercentageRisk.go fee_perc min_fee risk_per_transaction money cs
        else
          Except.map
            (fun l =>
              _define_symbol_to_buy c
                (sharesVsBudget fee_perc (prTheoTrx risk_per_transaction s c.price) money c.price)
                (sharesVsBudget fee_perc (prTheoTrx risk_per_transaction s c.price) money c.price
                  * c.price)
                (calculate_fee fee_perc min_fee
                  (sharesVsBudget fee_perc (prTheoTrx risk_per_transaction s c.price) money c.price
                    * c.price)) :: l)
            (PercentageRisk.go fee_perc min_fee risk_per_transaction
              (money -
                (sharesVsBudget fee_perc (prTheoTrx risk_per_transaction s c.price) money c.price
                    * c.price +
                  calculate_fee fee_perc min_fee
                    (sharesVsBudget fee_perc (prTheoTrx risk_per_transaction s c.price) money
                        c.price * c.price))) cs)

/-- `PercentageRisk.decide_what_to_buy`: `risk_per_transaction` is
`round(capital * perc_risk, 2)`. -/
def PercentageRisk.decide_what_to_buy (fee_perc min_fee : ℚ) (sort_type : SortType)
    (perc_risk available_money_at_time capital : ℚ) (candidates : List Candidate) :
    Except PRError (List Fill) :=
  PercentageRisk.go fee_perc min_fee (round2 (capital * perc_risk)) available_money_at_time
    (PositionSize.sort sort_type candidates)

/-- The first failure a left-to-right scan of the candidate list encounters
in `PercentageRisk.decide_what_to_buy`: a missing or falsy stop_loss, a NaN
stop_loss, a stop_loss equal to the price (zero per-share risk), or a zero
`get_shares_count` divisor `price + price * fee_perc`.  Used to characterise
exactly when the sizer raises. -/
def firstStopLossFailure (fee_perc : ℚ) : List Candidate → Option PRError
  | [] => Option.none
  | c :: cs =>
    match c.stop_loss with
    | PyVal.none => some PRError.missingStopLoss
    | PyVal.nan => some PRError.nanStopLoss
    | PyVal.num s =>
      if s = 0 then some PRError.missingStopLoss
      else if |c.price - s| = 0 then some PRError.divByZero
      else if c.price + c.price * fee_perc = 0 then some PRError.divByZero
      else firstStopLossFailure fee_perc cs

/-- One row of a symbol's signal series: the price read through `price_label`
and the four binary entry/exit flags. -/
structure Row where
  price : ℚ
  entry_long : Bool
  exit_long : Bool
  entry_short : Bool
  exit_short : Bool
deriving DecidableEq

/-- `Backtester.signals` after `_prepare_signal`: per symbol (in dictionary
insertion order) the series of trading days, each day carrying a `Row`. -/
abbrev Signals := List (String × List (ℕ × Row))

/-- A trade identifier `{date}_{symbol}_{entry_type}` modelled structurally. -/
abbrev TradeId := ℕ × String × EntryType

/-- One entry of `Backtester._owned_shares`: signed share count plus the
back-reference to the opening trade. -/
structure Holding where
  cnt : ℚ
  trx_id : TradeId
deriving DecidableEq

/-- One entry of `Backtester._trades`. -/
structure Trade where
  buy_ds : ℕ
  type : EntryType
  trx_value_no_fee : ℚ
  trx_value_gross : ℚ
  sell_ds : Option ℕ
  sell_value_no_fee : Option ℚ
  sell_value_gross : Option ℚ
deriving DecidableEq

/-- The mutable per-run attributes of a `Backtester` instance. -/
structure BTState where
  available_money : ℚ
  owned_shares : List (String × Holding)
  trades : List (TradeId × Trade)
  account_value : List (ℕ × ℚ)
  net_account_value : List (ℕ × ℚ)
  rate_of_return : List (ℕ × ℚ)
deriving DecidableEq

/-- The configuration of a `Backtester` instance (the fields `run` never
mutates). -/
structure Backtester where
  signals : Signals
  init_capital : ℚ
  fee_perc : ℚ := 19/5000
  min_fee : ℚ := 4
deriving DecidableEq

/-- An arbitrary pre-run mutable state (a fresh instance). -/
def initState : BTState :=
  { available_money := 0, owned_shares := [], trades := []
    account_value := [], net_account_value := [], rate_of_return := [] }

/-- `Backtester._reset_backtest_state`. -/
def _reset_backtest_state (b : Backtester) : BTState :=
  { available_money := b.init_capital, owned_shares := [], trades := []
    account_value := [], net_account_value := [], rate_of_return := [] }

/-- Dictionary lookup `d.get(k)` for association lists. -/
def assocLookup {α β : Type} [DecidableEq α] (k : α) : List (α × β) → Option β
  | [] => Option.none
  | p :: ps => if p.1 = k then some p.2 else assocLookup k ps

/-- Dictionary `d.pop(k)`: drop the entry with the given key. -/
def popKey {α β : Type} [DecidableEq α] (k : α) : List (α × β) → List (α × β)
  | [] => []
  | p :: ps => if p.1 = k then popKey k ps else p :: popKey k ps

/-- Read a symbol's row for a day: `self.signals[symbol][...][ds]`. -/
def lookupRow (sig : Signals) (symbol : String) (ds : ℕ) : Option Row :=
  (assocLookup symbol sig).bind (fun series => assocLookup ds series)

/-- `self._trades[trx_id].update({...})` of `_sell`: merge the sell-side
fields into the trade with the given id. -/
def updateTradeSell (trades : List (TradeId × Trade)) (tid : TradeId) (ds : ℕ)
    (no_fee gross : ℚ) : List (TradeId × Trade) :=
  trades.map (fun p =>
    if p.1 = tid then
      (p.1, { p.2 with sell_ds := some ds, sell_value_no_fee := some no_fee,
                       sell_value_gross := some gross })
    else p)

/-- Python dictionary assignment `d[k] = v`: replace in place if the key
exists, else append (insertion order preserved). -/
def upsertAssoc {α β : Type} [DecidableEq α] (l : List (α × β)) (k : α) (v : β) :
    List (α × β) :=
  if (assocLookup k l).isSome then l.map (fun p => if p.1 = k then (k, v) else p)
  else l ++ [(k, v)]

/-- `Backtester._sell`: close the holding of `symbol`.  `trx_value` is the
*signed* share count times the price; the long branch credits
`trx_value - fee`, the short branch credits `trx_value + fee`. -/
def _sell (b : Backtester) (s : BTState) (symbol : String) (exit_type : EntryType)
    (ds : ℕ) : BTState :=
  match lookupRow b.signals symbol ds, assocLookup symbol s.owned_shares with
  | some row, some holding =>
    { s with
        available_money := s.available_money +
          (match exit_type with
            | .long => holding.cnt * row.price -
                calculate_fee b.fee_perc b.min_fee (holding.cnt * row.price)
            | .short => holding.cnt * row.price +
                calculate_fee b.fee_perc b.min_fee (holding.cnt * row.price))
        trades := updateTradeSell s.trades holding.trx_id ds (holding.cnt * row.price)
          (match exit_type with
            | .long => holding.cnt * row.price -
                calculate_fee b.fee_perc b.min_fee (holding.cnt * row.price)
            | .short => holding.cnt * row.price +
                calculate_fee b.fee_perc b.min_fee (holding.cnt * row.price))
        owned_shares := popKey symbol s.owned_shares }
  | _, _ => s

/-- One iteration of the exit pass of `Backtester.run`: if the symbol's
`exit_long` flag is 1 sell as a long exit, else if `exit_short` is 1 sell as
a short exit.  The source never inspects the sign of the held position. -/
def exitStep (b : Backtester) (ds : ℕ) (s : BTState) (symbol : String) : BTState :=
  match lookupRow b.signals symbol ds with
  | some row =>
    if row.exit_long then _sell b s symbol .long ds
    else if row.exit_short then _sell b s symbol .short ds
    else s
  | Option.none => s

/-- The exit pass of `Backtester.run`: iterate over a snapshot of the held
symbols in insertion order. -/
def exitPass (b : Backtester) (s : BTState) (ds : ℕ) : BTState :=
  (s.owned_shares.map Prod.fst).foldl (exitStep b ds) s

/-- The symbols having data on day `ds`, in signals insertion order
(`symbols_in_day[ds]` of `Backtester.run`). -/
def symbols_in_day (b : Backtester) (ds : ℕ) : List String :=
  (b.signals.filter (fun p => (assocLookup ds p.2).isSome)).map Prod.fst

/-- `Backtester._define_candidate`. -/
def _define_candidate (b : Backtester) (symbol : String) (ds : ℕ)
    (entry_type : EntryType) : Candidate :=
  { symbol := symbol
    entry_type := entry_type
    price := ((lookupRow b.signals symbol ds).map Row.price).getD 0
    stop_loss := PyVal.none }

/-- Candidate collection of `Backtester.run`: `entry_long` is checked first,
else `entry_short`. -/
def candidatePass (b : Backtester) (ds : ℕ) : List Candidate :=
  (symbols_in_day b ds).filterMap (fun sym =>
    match lookupRow b.signals sym ds with
    | some row =>
      if row.entry_long then some (_define_candidate b sym ds .long)
      else if row.entry_short then some (_define_candidate b sym ds .short)
      else Option.none
    | Option.none => Option.none)

/-- `Backtester.buying_decisions`: greedily fill every candidate affordable
from the running copy of available money (skipping zero-share candidates),
deducting `trx_value + fee` after each fill. -/
def buying_decisions (fee_perc min_fee : ℚ) :
    ℚ → List Candidate → List Fill
  | _, [] => []
  | available_money_at_time, c :: cs =>
    if get_shares_count fee_perc available_money_at_time c.price = 0 then
      buying_decisions fee_perc min_fee available_money_at_time cs
    else
      _define_symbol_to_buy c (get_shares_count fee_perc available_money_at_time c.price)
          (get_shares_count fee_perc available_money_at_time c.price * c.price)
          (calculate_fee fee_perc min_fee
            (get_shares_count fee_perc available_money_at_time c.price * c.price)) ::
        buying_decisions fee_perc min_fee
          (available_money_at_time -
            (get_shares_count fee_perc available_money_at_time c.price * c.price +
              calculate_fee fee_perc min_fee
                (get_shares_count fee_perc available_money_at_time c.price * c.price))) cs

/-- `Backtester._buy`: a long entry debits `trx_value + fee` and records a
positive share count; a short entry credits `trx_value - fee` and records a
negative share count. -/
def _buy (s : BTState) (f : Fill) (ds : ℕ) : BTState :=
  match f.entry_type with
  | .long =>
    { s with
        owned_shares := upsertAssoc s.owned_shares f.symbol
          ⟨f.shares_count, (ds, f.symbol, f.entry_type)⟩
        available_money := s.available_money - (f.trx_value + f.fee)
        trades := upsertAssoc s.trades (ds, f.symbol, f.entry_type)
          ⟨ds, f.entry_type, f.trx_value, f.trx_value + f.fee,
            Option.none, Option.none, Option.none⟩ }
  | .short =>
    { s with
        owned_shares := upsertAssoc s.owned_shares f.symbol
          ⟨-f.shares_count, (ds, f.symbol, f.entry_type)⟩
        available_money := s.available_money + (f.trx_value - f.fee)
        trades := upsertAssoc s.trades (ds, f.symbol, f.entry_type)
          ⟨ds, f.entry_type, f.trx_value, f.trx_value - f.fee,
            Option.none, Option.none, Option.none⟩ }

/-- `Backtester._summarize_day`: mark holdings to market and append the three
daily aggregates. -/
def _summarize_day (b : Backtester) (s : BTState) (ds : ℕ) : BTState :=
  { s with
      account_value := s.account_value ++
        [(ds, s.owned_shares.foldl
          (fun acc p => acc + p.2.cnt * (((lookupRow b.signals p.1 ds).map Row.price).getD 0)) 0)]
      net_account_value := s.net_account_value ++
        [(ds, s.owned_shares.foldl
          (fun acc p => acc + p.2.cnt * (((lookupRow b.signals p.1 ds).map Row.price).getD 0)) 0
          + s.available_money)]
      rate_of_return := s.rate_of_return ++
        [(ds, ((s.owned_shares.foldl
          (fun acc p => acc + p.2.cnt * (((lookupRow b.signals p.1 ds).map Row.price).getD 0)) 0
          + s.available_money) - b.init_capital) / b.init_capital * 100)] }

/-- One trading day of `Backtester.run`: exit pass, candidate collection,
buying decisions, buy pass, daily summary — in that order. -/
def runDay (b : Backtester) (s : BTState) (ds : ℕ) : BTState :=
  _summarize_day b
    ((buying_decisions b.fee_perc b.min_fee (exitPass b s ds).available_money
        (candidatePass b ds)).foldl
      (fun st f => _buy st f ds) (exitPass b s ds))
    ds

/-- Sorted insertion for natural numbers. -/
def natInsert (n : ℕ) : List ℕ → List ℕ
  | [] => [n]
  | m :: ms => if n ≤ m then n :: m :: ms else m :: natInsert n ms

/-- Insertion sort for natural numbers. -/
def natSort : List ℕ → List ℕ
  | [] => []
  | n :: ns => natInsert n (natSort ns)

/-- Collapse adjacent duplicates (on a sorted list this is deduplication). -/
def dedupAdj : List ℕ → List ℕ
  | [] => []
  | [n] => [n]
  | n :: m :: ms => if n = m then dedupAdj (m :: ms) else n :: dedupAdj (m :: ms)

/-- `days = sorted(symbols_in_day.keys())`: the ascending list of all distinct
trading days across all symbols. -/
def allDays (b : Backtester) : List ℕ :=
  dedupAdj (natSort (b.signals.foldr (fun p acc => p.2.map Prod.fst ++ acc) []))

/-- `Backtester.run`: reset all mutable state, then loop over the (optionally
truncated) day list.  The parameter `s0` stands for whatever mutable state the
instance carried before the call; `_reset_backtest_state` discards it. -/
def Backtester.run (b : Backtester) (test_days : Option ℕ) (s0 : BTState) : BTState :=
  ((match test_days with
    | some n => (allDays b).take n
    | Option.none => allDays b).foldl (runDay b)
    (let _ := s0; _reset_backtest_state b))

/-- Total money spent by a list of fills (`trx_value + fee` summed). -/
def sumSpend (fills : List Fill) : ℚ :=
  fills.foldr (fun f acc => f.trx_value + f.fee + acc) 0

/-- The 4-day single-symbol scenario of §8 of the spec and of
`src/tests/test_backtester.py` (`signals_test_sigs_1`): close prices
100, 210, 90, 80; entry_long on day 1, exit_long on day 2, entry_short on
day 3, exit_short on day 4. -/
def scenarioSignals : Signals :=
  [("TEST_SIGS_1",
    [(1, ⟨100, true, false, false, false⟩),
     (2, ⟨210, false, true, false, false⟩),
     (3, ⟨90, false, false, true, false⟩),
     (4, ⟨80, false, false, false, true⟩)])]

/-- The scenario engine: initial capital 500, fee 0.38%, minimum fee 4. -/
def scenarioBacktester : Backtester :=
  { signals := scenarioSignals, init_capital := 500, fee_perc := 19/5000, min_fee := 4 }

/-- C3 counterexample engine: initial capital 10.1 and a single long entry at
price 10 on day 1. -/
def c3Backtester : Backtester :=
  { signals := [("AAA", [(1, ⟨10, true, false, false, false⟩)])]
    init_capital := 101/10, fee_perc := 19/5000, min_fee := 4 }

/-- C1 counterexample engine: symbol TST has `exit_long = 1` on day 7 at
price 80. -/
def c1Backtester : Backtester :=
  { signals := [("TST", [(7, ⟨80, false, true, false, false⟩)])]
    init_capital := 500, fee_perc := 19/5000, min_fee := 4 }

/-- C1 counterexample state: a SHORT holding of 10 shares of TST. -/
def c1State : BTState :=
  { available_money := 1828
    owned_shares := [("TST", ⟨-10, (3, "TST", EntryType.short)⟩)]
    trades := [((3, "TST", EntryType.short),
      ⟨3, EntryType.short, 900, 896, Option.none, Option.none, Option.none⟩)]
    account_value := [], net_account_value := [], rate_of_return := [] }

/-- The row and holding of the C1 witness. -/
def c1Row : Row := ⟨80, false, true, false, false⟩

/-- The short holding of the C1 witness. -/
def c1Holding : Holding := ⟨-10, (3, "TST", EntryType.short)⟩

/-- C3 witness state: a fresh engine state with cash 10000. -/
def c3wState : BTState :=
  { available_money := 10000, owned_shares := [], trades := []
    account_value := [], net_account_value := [], rate_of_return := [] }

/-- C3 witness candidate: a long candidate at price 100. -/
def c3wCand : Candidate :=
  { symbol := "AAA", entry_type := EntryType.long, price := 100 }

/-- C4 helper: `round2` is monotone. -/
theorem round2_mono {x y : ℚ} (h : x ≤ y) : round2 x ≤ round2 y := by
  have h2 : round (100 * x) ≤ round (100 * y) := by
    rw [round_eq, round_eq]
    exact Int.floor_le_floor (by linarith)
  have h3 : ((round (100 * x) : ℤ) : ℚ) ≤ ((round (100 * y) : ℤ) : ℚ) := by exact_mod_cast h2
  unfold round2
  linarith

/-- C4 helper: `round2` fixes multiples of one hundredth. -/
theorem round2_of_hundredth (k : ℤ) : round2 ((k : ℚ) / 100) = (k : ℚ) / 100 := by
  unfold round2
  have h : (100 : ℚ) * ((k : ℚ) / 100) = (k : ℚ) := by field_simp
  rw [h, round_intCast]

/-- C4: for every transaction value `v` the computed fee equals
`max(v * fee_perc, min_fee)` rounded to two decimals; whenever `min_fee` is a
whole number of hundredths (as the configured fee floors are) the fee is at
least `min_fee`, and the fee equals `round(v * fee_perc, 2)` whenever that
rounded value exceeds `min_fee`. -/
theorem fee_eq_max_rounded (fee_perc min_fee v : ℚ)
    (hmf : ∃ k : ℤ, min_fee = (k : ℚ) / 100) :
    calculate_fee fee_perc min_fee v = round2 (max (v * fee_perc) min_fee) ∧
    min_fee ≤ calculate_fee fee_perc min_fee v ∧
    (min_fee < round2 (v * fee_perc) →
      calculate_fee fee_perc min_fee v = round2 (v * fee_perc)) := by
  obtain ⟨k, hk⟩ := hmf
  have h1 : calculate_fee fee_perc min_fee v = round2 (max (v * fee_perc) min_fee) := by
    unfold calculate_fee
    by_cases h : v * fee_perc < min_fee
    · rw [if_pos h, max_eq_right h.le]
    · rw [if_neg h, max_eq_left (not_lt.mp h)]
  have hr : round2 min_fee = min_fee := by rw [hk]; exact round2_of_hundredth k
  refine ⟨h1, ?_, ?_⟩
  · rw [h1]
    calc min_fee = round2 min_fee := hr.symm
      _ ≤ round2 (max (v * fee_perc) min_fee) := round2_mono (le_max_right _ _)
  · intro hlt
    rw [h1]
    have hle : min_fee ≤ v * fee_perc := by
      by_contra hc
      push_neg at hc
      have hmono : round2 (v * fee_perc) ≤ round2 min_fee := round2_mono hc.le
      rw [hr] at hmono
      linarith
    rw [max_eq_left hle]

/-- C4 witness: the fee formula at the engine's configured rate 0.38% and
floor 4, on transaction value 2000 (proportional fee 7.60 exceeds the floor). -/
theorem fee_eq_max_rounded_witness :
    (∃ k : ℤ, (4 : ℚ) = (k : ℚ) / 100) ∧
    (calculate_fee (19/5000) 4 2000 = round2 (max ((2000 : ℚ) * (19/5000)) 4) ∧
      (4 : ℚ) ≤ calculate_fee (19/5000) 4 2000 ∧
      ((4 : ℚ) < round2 ((2000 : ℚ) * (19/5000)) →
        calculate_fee (19/5000) 4 2000 = round2 ((2000 : ℚ) * (19/5000)))) :=
  ⟨⟨400, by norm_num⟩, fee_eq_max_rounded (19/5000) 4 2000 ⟨400, by norm_num⟩⟩

/-- C2 (code bug): evaluating `Backtester.run` on the spec's 4-day scenario.
Because `_sell` computes `trx_value` from the *signed* share count, the
short cover on day 4 charges the minimum fee on a negative transaction value
and then *adds* it: cash moves by −800 + 4 = −796, ending at 1032 — not the
1024 (debit 800 + 4) that the spec sentence and the repository's own test
`test_functional_backtester_4days_TEST_SIGS_1` expect.  The closing trade's
`sell_value_gross` is −796 where the test expects −804. -/
theorem short_cover_scenario_eval :
    (Backtester.run scenarioBacktester Option.none initState).available_money = 1032 ∧
    assocLookup 4 (Backtester.run scenarioBacktester Option.none initState).net_account_value
      = some 1032 ∧
    (assocLookup (3, "TEST_SIGS_1", EntryType.short)
        (Backtester.run scenarioBacktester Option.none initState).trades).map
      Trade.sell_value_gross = some (some (-796)) := by
  norm_num [Backtester.run, allDays, natSort, natInsert, dedupAdj, runDay, exitPass, exitStep,
    _sell, lookupRow, assocLookup, popKey, updateTradeSell, upsertAssoc, symbols_in_day,
    _define_candidate, candidatePass, buying_decisions, _buy, _summarize_day, get_shares_count,
    calculate_fee, round2, round_eq, _define_symbol_to_buy, initState, _reset_backtest_state,
    scenarioBacktester, scenarioSignals, List.filter, List.filterMap]

/-- C3 counterexample: with initial capital 10.1 and a long candidate at
price 10, the affordability estimate yields 1 share (10.1 // 10.038), but the
charged amount is trx_value + fee = 10 + 4 (minimum-fee floor), so cash after
the buy pass is 10.1 − 14 = −3.9 < 0: cash does go negative after a long Buy. -/
theorem buy_can_overdraw_cash :
    (Backtester.run c3Backtester Option.none initState).available_money < 0 := by
  norm_num [Backtester.run, allDays, natSort, natInsert, dedupAdj, runDay, exitPass, exitStep,
    _sell, lookupRow, assocLookup, popKey, updateTradeSell, upsertAssoc, symbols_in_day,
    _define_candidate, candidatePass, buying_decisions, _buy, _summarize_day, get_shares_count,
    calculate_fee, round2, round_eq, _define_symbol_to_buy, initState, _reset_backtest_state,
    c3Backtester, List.filter, List.filterMap]

/-- C1 counterexample: a short holding (−10 shares of TST) whose `exit_long`
flag is 1 is NOT left unchanged by the exit pass: the code runs `Sell(long)`
regardless of the position's sign, so cash changes (1828 → 1024) and the
holding is removed. -/
theorem exit_long_on_short_changes_state :
    (exitPass c1Backtester c1State 7).available_money ≠ c1State.available_money ∧
    (exitPass c1Backtester c1State 7).owned_shares = [] := by
  norm_num [exitPass, exitStep, _sell, lookupRow, assocLookup, popKey, updateTradeSell,
    get_shares_count, calculate_fee, round2, round_eq, c1Backtester, c1State]

/-- C1 amended: in the daily exit pass the long branch fires whenever the
held symbol's `exit_long` flag is 1, regardless of whether the holding is
long or short: the holding is closed and cash moves by
`cnt * price − fee(cnt * price)` with the *signed* count `cnt`. -/
theorem exit_long_fires_regardless_of_position_sign
    (b : Backtester) (s : BTState) (sym : String) (ds : ℕ) (row : Row) (h : Holding)
    (hrow : lookupRow b.signals sym ds = some row) (hexit : row.exit_long = true)
    (hold : s.owned_shares = [(sym, h)]) :
    (exitPass b s ds).available_money =
      s.available_money + (h.cnt * row.price -
        calculate_fee b.fee_perc b.min_fee (h.cnt * row.price)) ∧
    (exitPass b s ds).owned_shares = [] := by
  have hstep : exitStep b ds s sym = _sell b s sym EntryType.long ds := by
    unfold exitStep
    rw [hrow]
    simp [hexit]
  have hpass : exitPass b s ds = _sell b s sym EntryType.long ds := by
    unfold exitPass
    rw [hold]
    simp only [List.map, List.foldl]
    exact hstep
  rw [hpass]
  unfold _sell
  rw [hrow, hold]
  simp [assocLookup, popKey]

/-- C1 witness: the amended exit-pass behaviour applied to the concrete short
holding of the counterexample. -/
theorem exit_long_fires_regardless_witness :
    (lookupRow c1Backtester.signals "TST" 7 = some c1Row ∧ c1Row.exit_long = true ∧
      c1State.owned_shares = [("TST", c1Holding)]) ∧
    ((exitPass c1Backtester c1State 7).available_money =
      c1State.available_money + (c1Holding.cnt * c1Row.price -
        calculate_fee c1Backtester.fee_perc c1Backtester.min_fee
          (c1Holding.cnt * c1Row.price)) ∧
    (exitPass c1Backtester c1State 7).owned_shares = []) :=
  ⟨⟨by norm_num [lookupRow, assocLookup, c1Backtester, c1Row], rfl, rfl⟩,
    exit_long_fires_regardless_of_position_sign c1Backtester c1State "TST" 7 c1Row c1Holding
      (by norm_num [lookupRow, assocLookup, c1Backtester, c1Row]) rfl rfl⟩

/-- C9: `run` is deterministic and independent of the pre-call mutable state:
`_reset_backtest_state` rebuilds every per-run mutable attribute (cash,
holdings, trades, snapshots) at the start of each invocation, so two `run`
calls with identical signals and configuration — whatever mutable state the
instance carried before each call — produce identical valuation series and
trade ledgers.  (The embedding contains no randomness: the `random`
sort_type is outside the model.) -/
theorem run_independent_of_prior_state (b : Backtester) (test_days : Option ℕ)
    (s1 s2 : BTState) :
    Backtester.run b test_days s1 = Backtester.run b test_days s2 := rfl

/-- C5 amended: `MaxFirstEncountered.decide_what_to_buy` returns exactly the
single fill built from the first candidate in sort order whose share count
`floor(cash / (price + price*fee_perc))` is NON-ZERO (the source tests
`shares_count == 0`, not `> 0`), with the maximum whole-share quantity from
the entire available cash, `trx_value = shares*price` and the fee from the
fee model; it returns the empty list when every candidate's share count is
zero. -/
theorem mfe_first_nonzero_char (fee_perc min_fee : ℚ) (sort_type : SortType)
    (money : ℚ) (candidates : List Candidate) :
    MaxFirstEncountered.decide_what_to_buy fee_perc min_fee sort_type money candidates =
      match (PositionSize.sort sort_type candidates).find?
          (fun c => decide (get_shares_count fee_perc money c.price ≠ 0)) with
      | some c => [_define_symbol_to_buy c (get_shares_count fee_perc money c.price)
          (get_shares_count fee_perc money c.price * c.price)
          (calculate_fee fee_perc min_fee (get_shares_count fee_perc money c.price * c.price))]
      | Option.none => [] := by
  unfold MaxFirstEncountered.decide_what_to_buy
  generalize PositionSize.sort sort_type candidates = l
  induction l with
  | nil => rfl
  | cons c cs ih =>
    by_cases h : get_shares_count fee_perc money c.price = 0
    · simp [MaxFirstEncountered.go, List.find?_cons, h, ih]
    · simp [MaxFirstEncountered.go, List.find?_cons, h]

/-- C5 counterexample: with available cash −5 (the engine's cash can be
negative per C3) and a single candidate at price 10, no candidate has a
POSITIVE share count, so the claim as stated predicts the empty list; the
source's `shares_count == 0` guard lets the floor value −1 through and
returns a fill with −1 shares. -/
theorem mfe_negative_cash_fill :
    MaxFirstEncountered.decide_what_to_buy (19/5000) 4 SortType.alphabetically (-5)
        [{ symbol := "AAA", entry_type := EntryType.long, price := 10 }] =
      [{ symbol := "AAA", entry_type := EntryType.long, shares_count := -1, price := 10,
         trx_value := -10, fee := 4 }] ∧
    ¬ (0 < get_shares_count (19/5000) (-5) 10) := by
  constructor
  · norm_num [MaxFirstEncountered.decide_what_to_buy, MaxFirstEncountered.go, PositionSize.sort,
      sortCandList, insertCand, get_shares_count, calculate_fee, round2, round_eq,
      _define_symbol_to_buy]
  · norm_num [get_shares_count]

/-- C6 amended: `FixedCapitalPerc.decide_what_to_buy` coincides, on every
input, with the sizer of the amended claim: candidates in sort order, the
whole-share quantity computed from `min(remaining_cash, ceiling)` where the
ceiling is `round(capital_reference * capital_perc, 2)`, the spent amount
`trx_value + fee` deducted from remaining cash before the next candidate,
and zero to many fills returned. -/
theorem fcp_eq_min_formulation (fee_perc min_fee : ℚ) (sort_type : SortType)
    (capital_perc money capital : ℚ) (candidates : List Candidate) :
    FixedCapitalPerc.decide_what_to_buy fee_perc min_fee sort_type capital_perc money capital
        candidates =
      FixedCapitalPercAmended.decide_what_to_buy fee_perc min_fee sort_type capital_perc money
        capital candidates := by
  unfold FixedCapitalPerc.decide_what_to_buy FixedCapitalPercAmended.decide_what_to_buy
  generalize round2 (capital * capital_perc) = limit
  generalize PositionSize.sort sort_type candidates = l
  induction l generalizing money with
  | nil => rfl
  | cons c cs ih =>
    have hsh : sharesVsBudget fee_perc limit money c.price =
        get_shares_count fee_perc (min money limit) c.price := by
      unfold sharesVsBudget
      by_cases h : money < limit
      · rw [if_pos h, min_eq_left h.le]
      · rw [if_neg h, min_eq_right (not_lt.mp h)]
    simp only [FixedCapitalPerc.go, FixedCapitalPercAmended.go, hsh]
    by_cases h : get_shares_count fee_perc (min money limit) c.price = 0
    · simp [h, ih]
    · simp [h, ih]

/-- C6 counterexample: with capital 1000 and capital_perc 1/3 the source's
per-trade ceiling is `round(1000 * 1/3, 2) = 333.33`, so a candidate at
price 332.07 (all-in per-share cost 333.331866) is unaffordable and the
result is empty — while the claim's unrounded ceiling
`capital_reference × capital_perc = 333.33…` yields a positive whole-share
quantity from `min(remaining_cash, ceiling)`. -/
theorem fcp_rounded_ceiling_counterexample :
    FixedCapitalPerc.decide_what_to_buy (19/5000) 4 SortType.alphabetically (1/3) 1000 1000
        [{ symbol := "AAA", entry_type := EntryType.long, price := 33207/100 }] = [] ∧
    0 < (⌊min (1000 : ℚ) ((1000 : ℚ) * (1/3)) / (33207/100 + (33207/100) * (19/5000))⌋ : ℤ) := by
  constructor
  · norm_num [FixedCapitalPerc.decide_what_to_buy, FixedCapitalPerc.go, PositionSize.sort,
      sortCandList, insertCand, sharesVsBudget, get_shares_count, round2, round_eq]
  · norm_num

/-- C7 helper: mapping over an `Except` preserves exactly the errors. -/
theorem except_map_error_iff {ε α β : Type} (f : α → β) (x : Except ε α) (e : ε) :
    Except.map f x = Except.error e ↔ x = Except.error e := by
  cases x <;> simp [Except.map]

/-- C7 helper: `PercentageRisk.go` errors exactly where a left-to-right scan
of the candidate list first hits a failure (stop-loss `ValueError` or one of
the two zero divisions), independently of the money accumulator. -/
theorem pr_go_error_iff (fee_perc min_fee risk : ℚ) (e : PRError) :
    ∀ (l : List Candidate) (money : ℚ),
      (PercentageRisk.go fee_perc min_fee risk money l = Except.error e ↔
        firstStopLossFailure fee_perc l = some e) := by
  intro l
  induction l with
  | nil =>
    intro money
    simp [PercentageRisk.go, firstStopLossFailure]
  | cons c cs ih =>
    intro money
    cases hsl : c.stop_loss with
    | none => simp [PercentageRisk.go, firstStopLossFailure, hsl]
    | nan => simp [PercentageRisk.go, firstStopLossFailure, hsl]
    | num s =>
      by_cases hs : s = 0
      · simp [PercentageRisk.go, firstStopLossFailure, hsl, hs]
      · by_cases hv : |c.price - s| = 0
        · simp [PercentageRisk.go, firstStopLossFailure, hsl, hs, hv]
        · by_cases hden : c.price + c.price * fee_perc = 0
          · simp [PercentageRisk.go, firstStopLossFailure, hsl, hs, hv, hden]
          · by_cases hshares :
              sharesVsBudget fee_perc (prTheoTrx risk s c.price) money c.price = 0
            · simp only [PercentageRisk.go, firstStopLossFailure, hsl, if_neg hs, if_neg hv,
                if_neg hden, if_pos hshares]
              exact ih money
            · simp only [PercentageRisk.go, firstStopLossFailure, hsl, if_neg hs, if_neg hv,
                if_neg hden, if_neg hshares]
              rw [except_map_error_iff]
              exact ih _

/-- C7 amended: `PercentageRisk.decide_what_to_buy` raises an error if and
only if scanning the sorted candidates left to right first hits a candidate
with a missing stop_loss, a Python-falsy stop_loss (the number 0), a NaN
stop_loss (the two `ValueError`s), a stop_loss equal to its price
(`ZeroDivisionError` in `risk // abs(price - stop_loss)`), or a zero
`get_shares_count` divisor `price + price * fee_perc`, e.g. a candidate
priced 0 (`ZeroDivisionError` in `money // (price + price * fee_perc)`,
reached right after the risk division) — with the error determined by that
first failing candidate; the error aborts sizing for the whole candidate
set (no fill list is returned).  The original claim's "missing or
non-numeric (NaN)" condition is refuted by the zero stop-loss
counterexample. -/
theorem pr_error_iff (fee_perc min_fee : ℚ) (sort_type : SortType)
    (perc_risk money capital : ℚ) (candidates : List Candidate) (e : PRError) :
    PercentageRisk.decide_what_to_buy fee_perc min_fee sort_type perc_risk money capital
        candidates = Except.error e ↔
      firstStopLossFailure fee_perc (PositionSize.sort sort_type candidates) = some e := by
  unfold PercentageRisk.decide_what_to_buy
  exact pr_go_error_iff fee_perc min_fee (round2 (capital * perc_risk)) e
    (PositionSize.sort sort_type candidates) money

/-- C7 helper: concrete evaluation of the zero-denominator error path — a
candidate priced 0 with a present, numeric, non-zero stop_loss passes both
documented validations and the per-share-risk division, and then aborts
with the `get_shares_count` zero division (`money // (0 + 0 * fee_perc)`). -/
theorem pr_price_zero_raises :
    PercentageRisk.decide_what_to_buy (19/5000) 4 SortType.alphabetically (1/100) 1000 10000
        [{ symbol := "AAA", entry_type := EntryType.long, price := 0,
           stop_loss := PyVal.num 5 }] = Except.error PRError.divByZero := by
  norm_num [PercentageRisk.decide_what_to_buy, PercentageRisk.go, PositionSize.sort,
    sortCandList, insertCand]

/-- C7 counterexample: a candidate whose stop_loss is the NUMBER 0 — present
and numeric, hence neither missing nor NaN — still raises the
missing-stop-loss `ValueError`, because the source checks Python truthiness
(`not candidate.get('stop_loss', None)`) and `not 0.0` is true. -/
theorem pr_zero_stop_loss_raises :
    PercentageRisk.decide_what_to_buy (19/5000) 4 SortType.alphabetically (1/100) 1000 10000
        [{ symbol := "AAA", entry_type := EntryType.long, price := 10,
           stop_loss := PyVal.num 0 }] = Except.error PRError.missingStopLoss := by
  norm_num [PercentageRisk.decide_what_to_buy, PercentageRisk.go, PositionSize.sort,
    sortCandList, insertCand]

/-- C10: a candidate whose numeric, non-zero, non-NaN stop_loss equals its
price passes both documented validations, but the floor division
`risk_per_transaction // abs(price - stop_loss)` divides by zero: sizing for
the whole candidate set aborts with the (modelled) `ZeroDivisionError`
instead of skipping the candidate or raising the documented stop-loss
input error. -/
theorem pr_stop_loss_eq_price_div_zero (fee_perc min_fee : ℚ) (sort_type : SortType)
    (perc_risk money capital : ℚ) (c : Candidate) (s : ℚ)
    (hsl : c.stop_loss = PyVal.num s) (hs : s ≠ 0) (heq : c.price = s) :
    PercentageRisk.decide_what_to_buy fee_perc min_fee sort_type perc_risk money capital [c] =
      Except.error PRError.divByZero := by
  unfold PercentageRisk.decide_what_to_buy
  have hsort : PositionSize.sort sort_type [c] = [c] := by
    cases sort_type <;> rfl
  rw [hsort]
  simp [PercentageRisk.go, hsl, hs, heq, sub_self, abs_zero]

/-- C10 witness: the zero-division abort at stop_loss = price = 10. -/
theorem pr_stop_loss_eq_price_div_zero_witness :
    ((⟨"AAA", EntryType.long, 10, PyVal.num 10⟩ : Candidate).stop_loss = PyVal.num 10 ∧
      (10 : ℚ) ≠ 0 ∧ (⟨"AAA", EntryType.long, 10, PyVal.num 10⟩ : Candidate).price = 10) ∧
    PercentageRisk.decide_what_to_buy (19/5000) 4 SortType.alphabetically (1/100) 1000 10000
        [⟨"AAA", EntryType.long, 10, PyVal.num 10⟩] = Except.error PRError.divByZero :=
  ⟨⟨rfl, by norm_num, rfl⟩,
    pr_stop_loss_eq_price_div_zero (19/5000) 4 SortType.alphabetically (1/100) 1000 10000
      ⟨"AAA", EntryType.long, 10, PyVal.num 10⟩ 10 rfl (by norm_num) rfl⟩

/-- C8 helper: `sumSpend` on nil. -/
theorem sumSpend_nil : sumSpend [] = 0 := rfl

/-- C8 helper: `sumSpend` on cons. -/
theorem sumSpend_cons (f : Fill) (l : List Fill) :
    sumSpend (f :: l) = f.trx_value + f.fee + sumSpend l := rfl

/-- C8 helper: fills of `MaxFirstEncountered.go` have non-zero share count. -/
theorem mfe_go_nonzero (fee_perc min_fee money : ℚ) :
    ∀ (l : List Candidate) (f : Fill),
      f ∈ MaxFirstEncountered.go fee_perc min_fee money l → f.shares_count ≠ 0 := by
  intro l
  induction l with
  | nil =>
    intro f hf
    simp [MaxFirstEncountered.go] at hf
  | cons c cs ih =>
    intro f hf
    by_cases h : get_shares_count fee_perc money c.price = 0
    · rw [show MaxFirstEncountered.go fee_perc min_fee money (c :: cs) =
          MaxFirstEncountered.go fee_perc min_fee money cs by
        simp only [MaxFirstEncountered.go]; rw [if_pos h]] at hf
      exact ih f hf
    · rw [show MaxFirstEncountered.go fee_perc min_fee money (c :: cs) =
          [_define_symbol_to_buy c (get_shares_count fee_perc money c.price)
            (get_shares_count fee_perc money c.price * c.price)
            (calculate_fee fee_perc min_fee
              (get_shares_count fee_perc money c.price * c.price))] by
        simp only [MaxFirstEncountered.go]; rw [if_neg h]] at hf
      rw [List.mem_singleton] at hf
      subst hf
      simpa [_define_symbol_to_buy] using h

/-- C8 helper: fills of `FixedCapitalPerc.go` have non-zero share count. -/
theorem fcp_go_nonzero (fee_perc min_fee limit : ℚ) :
    ∀ (l : List Candidate) (money : ℚ) (f : Fill),
      f ∈ FixedCapitalPerc.go fee_perc min_fee limit money l → f.shares_count ≠ 0 := by
  intro l
  induction l with
  | nil =>
    intro money f hf
    simp [FixedCapitalPerc.go] at hf
  | cons c cs ih =>
    intro money f hf
    by_cases h : sharesVsBudget fee_perc limit money c.price = 0
    · rw [show FixedCapitalPerc.go fee_perc min_fee limit money (c :: cs) =
          FixedCapitalPerc.go fee_perc min_fee limit money cs by
        simp only [FixedCapitalPerc.go]; rw [if_pos h]] at hf
      exact ih money f hf
    · rw [show FixedCapitalPerc.go fee_perc min_fee limit money (c :: cs) =
          _define_symbol_to_buy c (sharesVsBudget fee_perc limit money c.price)
              (sharesVsBudget fee_perc limit money c.price * c.price)
              (calculate_fee fee_perc min_fee
                (sharesVsBudget fee_perc limit money c.price * c.price)) ::
            FixedCapitalPerc.go fee_perc min_fee limit
              (money - (sharesVsBudget fee_perc limit money c.price * c.price +
                calculate_fee fee_perc min_fee
                  (sharesVsBudget fee_perc limit money c.price * c.price))) cs by
        simp only [FixedCapitalPerc.go]; rw [if_neg h]] at hf
      rcases List.mem_cons.mp hf with hf1 | hf2
      · subst hf1
        simpa [_define_symbol_to_buy] using h
      · exact ih _ f hf2

/-- C8 helper: fills of a successful `PercentageRisk.go` run have non-zero
share count. -/
theorem pr_go_nonzero (fee_perc min_fee risk : ℚ) :
    ∀ (l : List Candidate) (money : ℚ) (res : List Fill) (f : Fill),
      PercentageRisk.go fee_perc min_fee risk money l = Except.ok res → f ∈ res →
        f.shares_count ≠ 0 := by
  intro l
  induction l with
  | nil =>
    intro money res f hok hf
    simp only [PercentageRisk.go] at hok
    cases hok
    simp at hf
  | cons c cs ih =>
    intro money res f hok hf
    cases hsl : c.stop_loss with
    | none =>
      rw [show PercentageRisk.go fee_perc min_fee risk money (c :: cs) =
            Except.error PRError.missingStopLoss by
          simp only [PercentageRisk.go, hsl]] at hok
      exact Except.noConfusion hok
    | nan =>
      rw [show PercentageRisk.go fee_perc min_fee risk money (c :: cs) =
            Except.error PRError.nanStopLoss by
          simp only [PercentageRisk.go, hsl]] at hok
      exact Except.noConfusion hok
    | num s =>
      by_cases hs : s = 0
      · rw [show PercentageRisk.go fee_perc min_fee risk money (c :: cs) =
            Except.error PRError.missingStopLoss by
          simp only [PercentageRisk.go, hsl]; rw [if_pos hs]] at hok
        exact Except.noConfusion hok
      · by_cases hv : |c.price - s| = 0
        · rw [show PercentageRisk.go fee_perc min_fee risk money (c :: cs) =
              Except.error PRError.divByZero by
            simp only [PercentageRisk.go, hsl]; rw [if_neg hs, if_pos hv]] at hok
          exact Except.noConfusion hok
        · by_cases hden : c.price + c.price * fee_perc = 0
          · rw [show PercentageRisk.go fee_perc min_fee risk money (c :: cs) =
                Except.error PRError.divByZero by
              simp only [PercentageRisk.go, hsl]
              rw [if_neg hs, if_neg hv, if_pos hden]] at hok
            exact Except.noConfusion hok
          · by_cases hshares :
              sharesVsBudget fee_perc (prTheoTrx risk s c.price) money c.price = 0
            · rw [show PercentageRisk.go fee_perc min_fee risk money (c :: cs) =
                  PercentageRisk.go fee_perc min_fee risk money cs by
                simp only [PercentageRisk.go, hsl]
                rw [if_neg hs, if_neg hv, if_neg hden, if_pos hshares]] at hok
              exact ih money res f hok hf
            · rw [show PercentageRisk.go fee_perc min_fee risk money (c :: cs) =
                  Except.map
                    (fun l =>
                      _define_symbol_to_buy c
                        (sharesVsBudget fee_perc (prTheoTrx risk s c.price) money c.price)
                        (sharesVsBudget fee_perc (prTheoTrx risk s c.price) money c.price
                          * c.price)
                        (calculate_fee fee_perc min_fee
                          (sharesVsBudget fee_perc (prTheoTrx risk s c.price) money c.price
                            * c.price)) :: l)
                    (PercentageRisk.go fee_perc min_fee risk
                      (money -
                        (sharesVsBudget fee_perc (prTheoTrx risk s c.price) money c.price
                            * c.price +
                          calculate_fee fee_perc min_fee
                            (sharesVsBudget fee_perc (prTheoTrx risk s c.price) money c.price
                                * c.price))) cs) by
                simp only [PercentageRisk.go, hsl]
                rw [if_neg hs, if_neg hv, if_neg hden, if_neg hshares]] at hok
              cases hgo : PercentageRisk.go fee_perc min_fee risk
                  (money -
                    (sharesVsBudget fee_perc (prTheoTrx risk s c.price) money c.price * c.price +
                      calculate_fee fee_perc min_fee
                        (sharesVsBudget fee_perc (prTheoTrx risk s c.price) money c.price
                            * c.price))) cs with
              | error e =>
                rw [hgo] at hok
                simp [Except.map] at hok
              | ok l2 =>
                rw [hgo] at hok
                simp only [Except.map] at hok
                cases hok
                rcases List.mem_cons.mp hf with hf1 | hf2
                · subst hf1
                  simpa [_define_symbol_to_buy] using hshares
                · exact ih _ l2 f hgo hf2

/-- C8 amended: no sizer ever returns a fill with `shares_count = 0` — a
candidate whose computed share count is zero is skipped.  (The original
claim's stronger `shares_count > 0` fails once remaining cash is negative:
see the counterexample producing a fill of −1 shares.) -/
theorem sizers_never_fill_zero_shares :
    (∀ (fee_perc min_fee money : ℚ) (sort_type : SortType) (candidates : List Candidate)
        (f : Fill),
      f ∈ MaxFirstEncountered.decide_what_to_buy fee_perc min_fee sort_type money candidates →
        f.shares_count ≠ 0) ∧
    (∀ (fee_perc min_fee capital_perc money capital : ℚ) (sort_type : SortType)
        (candidates : List Candidate) (f : Fill),
      f ∈ FixedCapitalPerc.decide_what_to_buy fee_perc min_fee sort_type capital_perc money
          capital candidates → f.shares_count ≠ 0) ∧
    (∀ (fee_perc min_fee perc_risk money capital : ℚ) (sort_type : SortType)
        (candidates : List Candidate) (res : List Fill) (f : Fill),
      PercentageRisk.decide_what_to_buy fee_perc min_fee sort_type perc_risk money capital
          candidates = Except.ok res → f ∈ res → f.shares_count ≠ 0) := by
  refine ⟨?_, ?_, ?_⟩
  · intro fee_perc min_fee money sort_type candidates f hf
    exact mfe_go_nonzero fee_perc min_fee money _ f hf
  · intro fee_perc min_fee capital_perc money capital sort_type candidates f hf
    exact fcp_go_nonzero fee_perc min_fee _ _ money f hf
  · intro fee_perc min_fee perc_risk money capital sort_type candidates res f hok hf
    exact pr_go_nonzero fee_perc min_fee _ _ money res f hok hf

/-- C8 counterexample: `FixedCapitalPerc` starting from non-negative cash
10.1 (limit `round2(1000 * 1/10) = 100`) and two candidates at price 10:
the first fill spends 10 + 4 (minimum fee) leaving −3.9, and the second
candidate's share count is `floor(−3.9 / 10.038) = −1 ≠ 0`, so a fill with
NEGATIVE shares is returned — refuting `shares_count > 0` for every fill. -/
theorem fcp_negative_shares_fill :
    ¬ (∀ f ∈ FixedCapitalPerc.decide_what_to_buy (19/5000) 4 SortType.alphabetically (1/10)
        (101/10) 1000
        [{ symbol := "AAA", entry_type := EntryType.long, price := 10 },
         { symbol := "BBB", entry_type := EntryType.long, price := 10 }],
        0 < f.shares_count) := by
  intro hall
  have hmem : (⟨"BBB", EntryType.long, -1, 10, -10, 4⟩ : Fill) ∈
      FixedCapitalPerc.decide_what_to_buy (19/5000) 4 SortType.alphabetically (1/10)
        (101/10) 1000
        [{ symbol := "AAA", entry_type := EntryType.long, price := 10 },
         { symbol := "BBB", entry_type := EntryType.long, price := 10 }] := by
    norm_num [FixedCapitalPerc.decide_what_to_buy, FixedCapitalPerc.go, PositionSize.sort,
      sortCandList, insertCand, symbolLe, charListLe, charLe, sharesVsBudget,
      get_shares_count, calculate_fee, round2, round_eq, _define_symbol_to_buy]
  have hpos := hall _ hmem
  norm_num at hpos

/-- C3 helper: `buying_decisions` on a skipped (zero-share) candidate. -/
theorem bd_cons_zero (fee_perc min_fee money : ℚ) (c : Candidate) (cs : List Candidate)
    (h : get_shares_count fee_perc money c.price = 0) :
    buying_decisions fee_perc min_fee money (c :: cs) =
      buying_decisions fee_perc min_fee money cs := by
  simp only [buying_decisions]
  rw [if_pos h]

/-- C3 helper: `buying_decisions` on a filled candidate. -/
theorem bd_cons_nonzero (fee_perc min_fee money : ℚ) (c : Candidate) (cs : List Candidate)
    (h : ¬ get_shares_count fee_perc money c.price = 0) :
    buying_decisions fee_perc min_fee money (c :: cs) =
      _define_symbol_to_buy c (get_shares_count fee_perc money c.price)
          (get_shares_count fee_perc money c.price * c.price)
          (calculate_fee fee_perc min_fee
            (get_shares_count fee_perc money c.price * c.price)) ::
        buying_decisions fee_perc min_fee
          (money - (get_shares_count fee_perc money c.price * c.price +
            calculate_fee fee_perc min_fee
              (get_shares_count fee_perc money c.price * c.price))) cs := by
  simp only [buying_decisions]
  rw [if_neg h]

/-- C3 helper: fills inherit the entry type of some candidate, so a purely
long candidate list yields purely long fills. -/
theorem bd_entry_types (fee_perc min_fee : ℚ) :
    ∀ (l : List Candidate) (money : ℚ) (f : Fill),
      f ∈ buying_decisions fee_perc min_fee money l →
      (∀ c ∈ l, c.entry_type = EntryType.long) → f.entry_type = EntryType.long := by
  intro l
  induction l with
  | nil =>
    intro money f hf _
    simp [buying_decisions] at hf
  | cons c cs ih =>
    intro money f hf hall
    by_cases h : get_shares_count fee_perc money c.price = 0
    · rw [bd_cons_zero fee_perc min_fee money c cs h] at hf
      exact ih money f hf (fun c' hc' => hall c' (List.mem_cons_of_mem _ hc'))
    · rw [bd_cons_nonzero fee_perc min_fee money c cs h] at hf
      rcases List.mem_cons.mp hf with hf1 | hf2
      · subst hf1
        simpa [_define_symbol_to_buy] using hall c (List.mem_cons_self _ _)
      · exact ih _ f hf2 (fun c' hc' => hall c' (List.mem_cons_of_mem _ hc'))

/-- C3 helper: as long as every produced fill's fee is at most the
proportional fee `trx_value * fee_perc`, the money remaining after deducting
every fill's `trx_value + fee` stays non-negative, because the floor in
`get_shares_count` guarantees `trx_value * (1 + fee_perc) ≤ money`. -/
theorem bd_money_nonneg (fee_perc min_fee : ℚ) (hfp : 0 ≤ fee_perc) :
    ∀ (l : List Candidate) (money : ℚ), 0 ≤ money → (∀ c ∈ l, 0 < c.price) →
      (∀ f ∈ buying_decisions fee_perc min_fee money l, f.fee ≤ f.trx_value * fee_perc) →
      0 ≤ money - sumSpend (buying_decisions fee_perc min_fee money l) := by
  intro l
  induction l with
  | nil =>
    intro money hm _ _
    simpa [buying_decisions, sumSpend] using hm
  | cons c cs ih =>
    intro money hm hpos hfee
    by_cases h : get_shares_count fee_perc money c.price = 0
    · rw [bd_cons_zero fee_perc min_fee money c cs h] at hfee ⊢
      exact ih money hm (fun c' hc' => hpos c' (List.mem_cons_of_mem _ hc')) hfee
    · rw [bd_cons_nonzero fee_perc min_fee money c cs h] at hfee ⊢
      have hp : 0 < c.price := hpos c (List.mem_cons_self _ _)
      have hd : 0 < c.price + c.price * fee_perc := by
        have hnn := mul_nonneg hp.le hfp
        linarith
      have hfloor : get_shares_count fee_perc money c.price ≤
          money / (c.price + c.price * fee_perc) := Int.floor_le _
      have hsle : get_shares_count fee_perc money c.price * (c.price + c.price * fee_perc)
          ≤ money := (le_div_iff₀ hd).mp hfloor
      have hfee_head : calculate_fee fee_perc min_fee
          (get_shares_count fee_perc money c.price * c.price) ≤
          get_shares_count fee_perc money c.price * c.price * fee_perc := by
        have hmem := hfee _ (List.mem_cons_self _ _)
        simpa [_define_symbol_to_buy] using hmem
      have hexp : get_shares_count fee_perc money c.price * (c.price + c.price * fee_perc) =
          get_shares_count fee_perc money c.price * c.price +
          get_shares_count fee_perc money c.price * c.price * fee_perc := by ring
      have hm2 : 0 ≤ money - (get_shares_count fee_perc money c.price * c.price +
          calculate_fee fee_perc min_fee
            (get_shares_count fee_perc money c.price * c.price)) := by
        linarith
      have ihm := ih
        (money - (get_shares_count fee_perc money c.price * c.price +
          calculate_fee fee_perc min_fee
            (get_shares_count fee_perc money c.price * c.price)))
        hm2
        (fun c' hc' => hpos c' (List.mem_cons_of_mem _ hc'))
        (fun f hf => hfee f (List.mem_cons_of_mem _ hf))
      rw [sumSpend_cons]
      simp only [_define_symbol_to_buy] at ihm ⊢
      linarith

/-- C3 helper: applying `_buy` over a list of long fills decreases available
money by exactly the summed `trx_value + fee`. -/
theorem buy_fold_money (ds : ℕ) :
    ∀ (fills : List Fill) (s : BTState),
      (∀ f ∈ fills, f.entry_type = EntryType.long) →
      (fills.foldl (fun st f => _buy st f ds) s).available_money =
        s.available_money - sumSpend fills := by
  intro fills
  induction fills with
  | nil =>
    intro s _
    simp [sumSpend]
  | cons f fs ih =>
    intro s hall
    have hf : f.entry_type = EntryType.long := hall f (List.mem_cons_self _ _)
    have hbuy : (_buy s f ds).available_money = s.available_money - (f.trx_value + f.fee) := by
      unfold _buy
      rw [hf]
    simp only [List.foldl_cons]
    rw [ih (_buy s f ds) (fun g hg => hall g (List.mem_cons_of_mem _ hg)), hbuy, sumSpend_cons]
    ring

/-- C3 amended: the affordability floor guarantees
`trx_value + trx_value * fee_perc ≤ money` at each decision, so after the
engine's whole buy pass (long candidates) cash stays non-negative PROVIDED
every executed fill's charged fee is at most the proportional fee
`trx_value * fee_perc`. The minimum-fee floor can violate that proviso and
drive cash negative (see the counterexample `buy_can_overdraw_cash`). -/
theorem buy_pass_cash_nonneg (fee_perc min_fee : ℚ) (ds : ℕ) (s : BTState)
    (candidates : List Candidate) (hfp : 0 ≤ fee_perc) (hm : 0 ≤ s.available_money)
    (hpos : ∀ c ∈ candidates, 0 < c.price)
    (hlong : ∀ c ∈ candidates, c.entry_type = EntryType.long)
    (hfee : ∀ f ∈ buying_decisions fee_perc min_fee s.available_money candidates,
      f.fee ≤ f.trx_value * fee_perc) :
    0 ≤ ((buying_decisions fee_perc min_fee s.available_money candidates).foldl
        (fun st f => _buy st f ds) s).available_money := by
  have hfills : ∀ f ∈ buying_decisions fee_perc min_fee s.available_money candidates,
      f.entry_type = EntryType.long :=
    fun f hf => bd_entry_types fee_perc min_fee candidates s.available_money f hf hlong
  rw [buy_fold_money ds _ s hfills]
  have hnn := bd_money_nonneg fee_perc min_fee hfp candidates s.available_money hm hpos hfee
  linarith

/-- C8 witness: each sizer's non-zero-share guarantee applied to concrete
fills it actually produces. -/
theorem sizers_never_fill_zero_shares_witness :
    (⟨"AAA", EntryType.long, 4, 100, 400, 4⟩ : Fill).shares_count ≠ 0 ∧
    (⟨"AAA", EntryType.long, 2, 100, 200, 4⟩ : Fill).shares_count ≠ 0 ∧
    (⟨"AAA", EntryType.long, 1, 100, 100, 4⟩ : Fill).shares_count ≠ 0 := by
  refine ⟨?_, ?_, ?_⟩
  · exact sizers_never_fill_zero_shares.1 (19/5000) 4 500 SortType.alphabetically
      [{ symbol := "AAA", entry_type := EntryType.long, price := 100 }] _
      (by norm_num [MaxFirstEncountered.decide_what_to_buy, MaxFirstEncountered.go,
        PositionSize.sort, sortCandList, insertCand, get_shares_count, calculate_fee,
        round2, round_eq, _define_symbol_to_buy])
  · exact sizers_never_fill_zero_shares.2.1 (19/5000) 4 (1/10) 300 10000
      SortType.alphabetically
      [{ symbol := "AAA", entry_type := EntryType.long, price := 100 }] _
      (by norm_num [FixedCapitalPerc.decide_what_to_buy, FixedCapitalPerc.go,
        PositionSize.sort, sortCandList, insertCand, sharesVsBudget, get_shares_count,
        calculate_fee, round2, round_eq, _define_symbol_to_buy])
  · exact sizers_never_fill_zero_shares.2.2 (19/5000) 4 (1/10) 200 10000
      SortType.alphabetically
      [{ symbol := "AAA", entry_type := EntryType.long, price := 100,
         stop_loss := PyVal.num 90 }]
      [⟨"AAA", EntryType.long, 1, 100, 100, 4⟩] _
      (by norm_num [PercentageRisk.decide_what_to_buy, PercentageRisk.go, PositionSize.sort,
        sortCandList, insertCand, sharesVsBudget, prTheoTrx, get_shares_count, calculate_fee,
        round2, round_eq, _define_symbol_to_buy, abs_of_pos, Except.map])
      (by norm_num)

/-- C3 witness: the conditional cash non-negativity applied to a concrete buy
pass whose single fill's proportional fee (37.62 on 9900) clears the
minimum-fee floor. -/
theorem buy_pass_cash_nonneg_witness :
    ((0:ℚ) ≤ 19/5000 ∧ (0:ℚ) ≤ c3wState.available_money ∧
      (∀ c ∈ [c3wCand], 0 < c.price) ∧ (∀ c ∈ [c3wCand], c.entry_type = EntryType.long) ∧
      (∀ f ∈ buying_decisions (19/5000) 4 c3wState.available_money [c3wCand],
        f.fee ≤ f.trx_value * (19/5000))) ∧
    0 ≤ ((buying_decisions (19/5000) 4 c3wState.available_money [c3wCand]).foldl
        (fun st f => _buy st f 1) c3wState).available_money := by
  have h1 : (0:ℚ) ≤ 19/5000 := by norm_num
  have h2 : (0:ℚ) ≤ c3wState.available_money := by norm_num [c3wState]
  have h3 : ∀ c ∈ [c3wCand], 0 < c.price := by
    intro c hc
    rw [List.mem_singleton] at hc
    subst hc
    norm_num [c3wCand]
  have h4 : ∀ c ∈ [c3wCand], c.entry_type = EntryType.long := by
    intro c hc
    rw [List.mem_singleton] at hc
    subst hc
    rfl
  have hbd : buying_decisions (19/5000) 4 c3wState.available_money [c3wCand] =
      [⟨"AAA", EntryType.long, 99, 100, 9900, 1881/50⟩] := by
    norm_num [buying_decisions, get_shares_count, calculate_fee, round2, round_eq,
      _define_symbol_to_buy, c3wState, c3wCand]
  have h5 : ∀ f ∈ buying_decisions (19/5000) 4 c3wState.available_money [c3wCand],
      f.fee ≤ f.trx_value * (19/5000) := by
    intro f hf
    rw [hbd, List.mem_singleton] at hf
    subst hf
    norm_num
  exact ⟨⟨h1, h2, h3, h4, h5⟩,
    buy_pass_cash_nonneg (19/5000) 4 1 c3wState [c3wCand] h1 h2 h3 h4 h5⟩
